import Mathlib

/-!
VecTcl: the type-promotion macros of `generic/vectclInt.h`

The header selects, by token pasting, the C element type of each numeric
array kind (`C_FROM_NATYPE`, `NATYPE_FROM_C`), the common C type of two
operand types (`UPCAST_COMMON`) and the conversion of an element into a
wider type (`UPCAST`).  A pasted name that has no `#define` is not a macro
and does not compile; the tables below return `none` there.
-/

namespace VecTcl

/-! ## Element kinds and C element types -/

/-- The numeric array kinds named by the header (suffixes of
`C_FROM_NATYPE_...`, values of `NATYPE_FROM_C_...`). -/
inductive NumArrayType where
  | NumArray_Int64
  | NumArray_Float64
  | NumArray_Complex128
  deriving DecidableEq, Repr, Fintype

/-- The C element types named by the header. -/
inductive CType where
  | int
  | double
  | NumArray_Complex
  deriving DecidableEq, Repr, Fintype

/-- The macro `#define C_FROM_NATYPE(X) NUMARRAYTPASTER(C_FROM_NATYPE_, X)` with
lines 23-25 of the header. -/
def C_FROM_NATYPE : NumArrayType → CType
  | .NumArray_Int64 => .int
  | .NumArray_Float64 => .double
  | .NumArray_Complex128 => .NumArray_Complex

/-- The macro `#define NATYPE_FROM_C(X) NUMARRAYTPASTER(NATYPE_FROM_C_, X)` with
lines 27-29 of the header. -/
def NATYPE_FROM_C : CType → NumArrayType
  | .int => .NumArray_Int64
  | .double => .NumArray_Float64
  | .NumArray_Complex => .NumArray_Complex128

/-- The macro `#define UPCAST_COMMON(T1, T2) NUMARRAYTPASTER4(UPCAST_COMMON_, T1, _, T2)`
with its nine entries, lines 45-53 of the header, in source order.  A pair
without a `#define` would be `none`. -/
def UPCAST_COMMON : CType → CType → Option CType
  | .int, .int => some .int
  | .int, .double => some .double
  | .double, .int => some .double
  | .double, .double => some .double
  | .int, .NumArray_Complex => some .NumArray_Complex
  | .NumArray_Complex, .int => some .NumArray_Complex
  | .double, .NumArray_Complex => some .NumArray_Complex
  | .NumArray_Complex, .double => some .NumArray_Complex
  | .NumArray_Complex, .NumArray_Complex => some .NumArray_Complex

/-- The common kind of two operand kinds, as the header computes it: the
kinds are turned into C types by `C_FROM_NATYPE`, looked up in
`UPCAST_COMMON`, and the resulting C type is named as a kind again by
`NATYPE_FROM_C`. -/
def commonType (k1 k2 : NumArrayType) : Option NumArrayType :=
  (UPCAST_COMMON (C_FROM_NATYPE k1) (C_FROM_NATYPE k2)).map NATYPE_FROM_C

/-! ## The promotion order of the specification -/

/-- Promotion rank of the specification, section 3:
Int64 < Float64 < Complex128. -/
def promotionRank : NumArrayType → Nat
  | .NumArray_Int64 => 0
  | .NumArray_Float64 => 1
  | .NumArray_Complex128 => 2

/-- The higher-ranked of two kinds in the order of the specification. -/
def higherRanked (k1 k2 : NumArrayType) : NumArrayType :=
  if promotionRank k1 ≤ promotionRank k2 then k2 else k1

/-! ## Element values

The C `double` is the IEEE 754 binary64 format: a sign bit, an 11-bit biased
exponent field and a 52-bit fraction field. -/

/-- A C `double`, by its three bit fields. -/
structure Float64 where
  sign : Bool
  exponent : Nat
  fraction : Nat
  deriving DecidableEq, Repr

namespace Float64

/-- The fields fit their widths (11 and 52 bits). -/
def WellFormed (d : Float64) : Prop :=
  d.exponent < 2048 ∧ d.fraction < 2 ^ 52

instance (d : Float64) : Decidable d.WellFormed := by
  unfold WellFormed; infer_instance

/-- The literal `0.0`. -/
def zero : Float64 := ⟨false, 0, 0⟩

/-- The rational number a finite double denotes; `none` for the infinities
and NaNs (exponent field all ones). -/
def toRat? (d : Float64) : Option ℚ :=
  if d.exponent = 2047 then none
  else
    let s : ℚ := if d.sign then -1 else 1
    if d.exponent = 0 then some (s * d.fraction * (2 : ℚ) ^ (-1074 : Int))
    else some (s * (2 ^ 52 + d.fraction : Nat) * (2 : ℚ) ^ ((d.exponent : Int) - 1075))

/-- Position of the leading one bit of `a` (0 for `a < 2`), by halving;
`fuel` bounds the number of halvings. -/
def leadingBitAux : Nat → Nat → Nat
  | 0, _ => 0
  | fuel + 1, a => if a < 2 then 0 else leadingBitAux fuel (a / 2) + 1

/-- Position of the leading one bit of `a`: `2 ^ leadingBit a ≤ a` and
`a < 2 ^ (leadingBit a + 1)` for positive `a`. -/
def leadingBit (a : Nat) : Nat := leadingBitAux a a

/-- Conversion of a C integer value to `double` (C99 6.3.1.4p2): a value
that binary64 represents is unchanged, any other is rounded to the nearest
double, ties to even.  `l` is the position of the leading bit of the
magnitude; with `l ≤ 52` the magnitude fits the 53-bit significand and is
shifted up into it, otherwise the low `l - 52` bits are rounded away. -/
def ofInt (n : Int) : Float64 :=
  if n = 0 then zero
  else
    let a := n.natAbs
    let l := leadingBit a
    if l ≤ 52 then ⟨decide (n < 0), 1023 + l, a * 2 ^ (52 - l) - 2 ^ 52⟩
    else
      let shift := l - 52
      let q := a / 2 ^ shift
      let r := a % 2 ^ shift
      let half := 2 ^ (shift - 1)
      let m := if half < r ∨ (r = half ∧ q % 2 = 1) then q + 1 else q
      if m = 2 ^ 53 then ⟨decide (n < 0), 1023 + l + 1, 0⟩
      else ⟨decide (n < 0), 1023 + l, m - 2 ^ 52⟩

end Float64

/-- Modelled from the spec: the struct `NumArray_Complex` of `vectcl.h`,
which is not among the sources.  Section 3: a complex value is a pair of
64-bit floats (real, imaginary). -/
structure NumArray_Complex where
  re : Float64
  im : Float64
  deriving DecidableEq, Repr

/-- Modelled from the spec: the constructor `NumArray_mkComplex(re, im)` of
`vectcl.h`, which is not among the sources; it builds the pair of section 3
from its real and its imaginary part, both of C type `double`. -/
def NumArray_mkComplex (re im : Float64) : NumArray_Complex :=
  ⟨re, im⟩

/-- The values of each C element type.  An `int` value is an integer; its
range is `INT_MIN .. INT_MAX`, see `IsInt`. -/
@[reducible] def CType.Val : CType → Type
  | .int => Int
  | .double => Float64
  | .NumArray_Complex => VecTcl.NumArray_Complex

/-- The constant `INT_MIN` of `limits.h` for the 32-bit `int` of the ILP32, LP64 and
LLP64 data models. -/
def INT_MIN : Int := -2147483648

/-- The constant `INT_MAX` of `limits.h` for the 32-bit `int` of the ILP32, LP64 and
LLP64 data models. -/
def INT_MAX : Int := 2147483647

/-- The integer is a value of the C type `int`. -/
def IsInt (n : Int) : Prop := INT_MIN ≤ n ∧ n ≤ INT_MAX

instance (n : Int) : Decidable (IsInt n) := by
  unfold IsInt; infer_instance

/-- The macro `#define UPCAST(TFROM, TTO, X) NUMARRAYTPASTER4(UPCAST_, TFROM, _, TTO)(X)`
with its six entries, lines 37-42 of the header, in source order; every other
pair pastes a name that is not defined (`none`).  The result is used at C
type `TTO`: where the entry expands to `X` and `X` is an `int` used as a
`double`, or where an `int` is passed for the `double` parameter of
`NumArray_mkComplex`, C converts it by `Float64.ofInt`. -/
def UPCAST : (TFROM TTO : CType) → Option (TFROM.Val → TTO.Val)
  | .int, .int => some (fun X => X)
  | .int, .double => some (fun X => Float64.ofInt X)
  | .double, .double => some (fun X => X)
  | .int, .NumArray_Complex => some (fun X => NumArray_mkComplex (Float64.ofInt X) Float64.zero)
  | .double, .NumArray_Complex => some (fun X => NumArray_mkComplex X Float64.zero)
  | .NumArray_Complex, .NumArray_Complex => some (fun X => X)
  | _, _ => none

/-- The conversion of an element of kind `kfrom` into kind `kto`, through
the C types `C_FROM_NATYPE` assigns to the kinds. -/
def upcast (kfrom kto : NumArrayType) :
    Option ((C_FROM_NATYPE kfrom).Val → (C_FROM_NATYPE kto).Val) :=
  UPCAST (C_FROM_NATYPE kfrom) (C_FROM_NATYPE kto)


/-! ## Lemmas on the integer-to-double conversion -/

namespace Float64

theorem leadingBitAux_spec (fuel : Nat) : ∀ a : Nat, 1 ≤ a → a ≤ fuel →
    2 ^ leadingBitAux fuel a ≤ a ∧ a < 2 ^ (leadingBitAux fuel a + 1) := by
  induction fuel with
  | zero => intro a h1 h2; omega
  | succ fuel ih =>
    intro a h1 h2
    unfold leadingBitAux
    by_cases h : a < 2
    · have ha : a = 1 := by omega
      subst ha
      simp
    · rw [if_neg h]
      have hdiv : a / 2 * 2 ≤ a := Nat.div_mul_le_self a 2
      have hlt : a < (a / 2 + 1) * 2 := by
        have := Nat.lt_div_mul_add (a := a) (b := 2) (by decide)
        omega
      obtain ⟨hlo, hhi⟩ := ih (a / 2) (by omega) (by omega)
      constructor
      · rw [pow_succ]; omega
      · rw [pow_succ]; omega

theorem leadingBit_spec (a : Nat) (h : 1 ≤ a) :
    2 ^ leadingBit a ≤ a ∧ a < 2 ^ (leadingBit a + 1) :=
  leadingBitAux_spec a a h (Nat.le_refl a)

/-- A magnitude below `2 ^ 53` has its leading bit at position 52 or lower. -/
theorem leadingBit_le_52 (a : Nat) (h1 : 1 ≤ a) (h : a < 2 ^ 53) : leadingBit a ≤ 52 := by
  have hs := (leadingBit_spec a h1).1
  by_contra hcon
  have : 2 ^ 53 ≤ 2 ^ leadingBit a := Nat.pow_le_pow_right (by decide) (by omega)
  omega

/-- Every integer of magnitude below `2 ^ 53` converts to a well-formed
double that denotes exactly that integer. -/
theorem ofInt_exact (n : Int) (h : n.natAbs < 2 ^ 53) :
    (ofInt n).WellFormed ∧ (ofInt n).toRat? = some (n : ℚ) := by
  by_cases h0 : n = 0
  · subst h0
    simp [ofInt, zero, toRat?, WellFormed]
  · have h1 : 1 ≤ n.natAbs := by omega
    obtain ⟨hlo, hhi⟩ := leadingBit_spec n.natAbs h1
    have hl := leadingBit_le_52 n.natAbs h1 h
    have hsplit : 2 ^ leadingBit n.natAbs * 2 ^ (52 - leadingBit n.natAbs) = 2 ^ 52 := by
      rw [← pow_add]; congr 1; omega
    have hge : 2 ^ 52 ≤ n.natAbs * 2 ^ (52 - leadingBit n.natAbs) := by
      rw [← hsplit]; exact Nat.mul_le_mul_right _ hlo
    have hlt : n.natAbs * 2 ^ (52 - leadingBit n.natAbs) < 2 ^ 53 := by
      have : 2 ^ (leadingBit n.natAbs + 1) * 2 ^ (52 - leadingBit n.natAbs) = 2 ^ 53 := by
        rw [← pow_add]; congr 1; omega
      rw [← this]
      exact Nat.mul_lt_mul_of_pos_right hhi (by positivity)
    have hof : ofInt n = ⟨decide (n < 0), 1023 + leadingBit n.natAbs,
        n.natAbs * 2 ^ (52 - leadingBit n.natAbs) - 2 ^ 52⟩ := by
      simp [ofInt, h0, hl]
    rw [hof]
    refine ⟨⟨by show 1023 + leadingBit n.natAbs < 2048; omega,
      by show n.natAbs * 2 ^ (52 - leadingBit n.natAbs) - 2 ^ 52 < 2 ^ 52; omega⟩, ?_⟩
    have he1 : ¬ (1023 + leadingBit n.natAbs = 2047) := by omega
    have he2 : ¬ (1023 + leadingBit n.natAbs = 0) := by omega
    simp only [toRat?, he1, he2, if_false]
    congr 1
    have hfrac : 2 ^ 52 + (n.natAbs * 2 ^ (52 - leadingBit n.natAbs) - 2 ^ 52)
        = n.natAbs * 2 ^ (52 - leadingBit n.natAbs) := by omega
    rw [hfrac]
    have hz : ((1023 + leadingBit n.natAbs : Nat) : Int) - 1075
        = -((52 - leadingBit n.natAbs : Nat) : Int) := by omega
    rw [hz, zpow_neg, zpow_natCast]
    push_cast
    have hne : ((2 : ℚ) ^ (52 - leadingBit n.natAbs)) ≠ 0 := by positivity
    rw [mul_assoc, mul_assoc, mul_inv_cancel₀ hne, mul_one]
    have habs : ((n.natAbs : Nat) : ℚ) = |(n : ℚ)| := by
      rw [Nat.cast_natAbs, Int.cast_abs]
    by_cases hneg : n < 0
    · have hq : (n : ℚ) < 0 := by exact_mod_cast hneg
      simp [hneg, habs, abs_of_neg hq]
    · have hq : (0 : ℚ) ≤ n := by exact_mod_cast (not_lt.mp hneg)
      simp [hneg, habs, abs_of_nonneg hq]

/-- The sign bit of a converted integer is set exactly for the negative ones. -/
theorem ofInt_sign (n : Int) : (ofInt n).sign = decide (n < 0) := by
  unfold ofInt
  by_cases h0 : n = 0
  · subst h0; simp [zero]
  · simp only [h0, if_false]
    split
    · rfl
    · split <;> split <;> rfl

/-- The conversion is one-to-one on the integers of magnitude below `2 ^ 53`. -/
theorem ofInt_injOn (n m : Int) (hn : n.natAbs < 2 ^ 53) (hm : m.natAbs < 2 ^ 53)
    (h : ofInt n = ofInt m) : n = m := by
  have h1 := (ofInt_exact n hn).2
  have h2 := (ofInt_exact m hm).2
  rw [h, h2] at h1
  exact_mod_cast (Option.some.inj h1).symm

/-- Beyond 53 bits the conversion rounds: `2 ^ 53 + 1` and `2 ^ 53` convert
to the same double. -/
theorem ofInt_rounds : ofInt 9007199254740993 = ofInt 9007199254740992 := by
  decide

end Float64

/-- Every `int` has magnitude below `2 ^ 53`. -/
theorem IsInt.natAbs_lt (n : Int) (h : IsInt n) : n.natAbs < 2 ^ 53 := by
  unfold IsInt INT_MIN INT_MAX at h
  omega


/-! ## The promotion table `UPCAST_COMMON` -/

/-- C1: for every pair of element kinds, `commonType` (the `UPCAST_COMMON`
entry of the C types `C_FROM_NATYPE` assigns to the kinds) is the
higher-ranked of the two under Int64 < Float64 < Complex128: Int64 with
Float64 gives Float64 in either order, any kind with Complex128 gives
Complex128 in either order, and the result is one of the two arguments. -/
theorem commonType_eq_higherRanked (k1 k2 : NumArrayType) :
    commonType k1 k2 = some (higherRanked k1 k2)
    ∧ UPCAST_COMMON (C_FROM_NATYPE k1) (C_FROM_NATYPE k2)
        = some (C_FROM_NATYPE (higherRanked k1 k2))
    ∧ commonType .NumArray_Int64 .NumArray_Float64 = some .NumArray_Float64
    ∧ commonType .NumArray_Float64 .NumArray_Int64 = some .NumArray_Float64
    ∧ commonType k1 .NumArray_Complex128 = some .NumArray_Complex128
    ∧ commonType .NumArray_Complex128 k1 = some .NumArray_Complex128
    ∧ (commonType k1 k2 = some k1 ∨ commonType k1 k2 = some k2) := by
  cases k1 <;> cases k2 <;> decide

/-- C2: `commonType` is commutative: for all kinds k1, k2 the entries
`UPCAST_COMMON(k1,k2)` and `UPCAST_COMMON(k2,k1)` both exist and name the
same kind. -/
theorem commonType_comm (k1 k2 : NumArrayType) :
    ∃ k, commonType k1 k2 = some k ∧ commonType k2 k1 = some k
      ∧ UPCAST_COMMON (C_FROM_NATYPE k1) (C_FROM_NATYPE k2) = some (C_FROM_NATYPE k)
      ∧ UPCAST_COMMON (C_FROM_NATYPE k2) (C_FROM_NATYPE k1) = some (C_FROM_NATYPE k) := by
  cases k1 <;> cases k2 <;> exact ⟨_, rfl, rfl, rfl, rfl⟩

/-- C3: `commonType` is idempotent: `commonType k k` is `k` for every kind;
`UPCAST_COMMON_int_int` is `int`, `UPCAST_COMMON_double_double` is `double`
and `UPCAST_COMMON_NumArray_Complex_NumArray_Complex` is `NumArray_Complex`. -/
theorem commonType_self (k : NumArrayType) :
    commonType k k = some k
    ∧ UPCAST_COMMON .int .int = some .int
    ∧ UPCAST_COMMON .double .double = some .double
    ∧ UPCAST_COMMON .NumArray_Complex .NumArray_Complex = some .NumArray_Complex := by
  cases k <;> decide

/-- C4: `commonType` is total: the lookup in `UPCAST_COMMON` is defined for
each of the nine ordered pairs of kinds (and of C element types). -/
theorem UPCAST_COMMON_total :
    (∀ k1 k2 : NumArrayType,
      (UPCAST_COMMON (C_FROM_NATYPE k1) (C_FROM_NATYPE k2)).isSome = true
      ∧ (commonType k1 k2).isSome = true)
    ∧ (∀ T1 T2 : CType, (UPCAST_COMMON T1 T2).isSome = true)
    ∧ Fintype.card (NumArrayType × NumArrayType) = 9 := by
  decide

/-! ## The conversion table `UPCAST` -/

/-- C5: upcasting an Int64 element `n` or a Float64 element `x` to
Complex128 is `NumArray_mkComplex(X, 0.0)`: the complex number whose real
part is the element and whose imaginary part is the double `0.0`, a
well-formed double that denotes exactly 0.  For an `int` the real part is
a well-formed double, with the sign bit of `n`, that denotes exactly `n`;
for a `double` the real part is the element itself, bit for bit. -/
theorem UPCAST_to_Complex (n : Int) (hn : IsInt n) (x : Float64) :
    (∃ g, upcast .NumArray_Int64 .NumArray_Complex128 = some g
      ∧ g n = NumArray_mkComplex (Float64.ofInt n) Float64.zero
      ∧ (g n).re.WellFormed
      ∧ (g n).re.sign = decide (n < 0)
      ∧ (g n).re.toRat? = some (n : ℚ)
      ∧ (g n).im = Float64.zero
      ∧ (g n).im.WellFormed ∧ (g n).im.toRat? = some 0)
    ∧ (∃ g, upcast .NumArray_Float64 .NumArray_Complex128 = some g
      ∧ g x = NumArray_mkComplex x Float64.zero
      ∧ (g x).re = x
      ∧ (g x).im = Float64.zero
      ∧ (g x).im.WellFormed ∧ (g x).im.toRat? = some 0) := by
  have hz : Float64.zero.toRat? = some 0 := by simp [Float64.zero, Float64.toRat?]
  have hw : Float64.zero.WellFormed := by decide
  have hex := Float64.ofInt_exact n (IsInt.natAbs_lt n hn)
  exact ⟨⟨_, rfl, rfl, hex.1, Float64.ofInt_sign n, hex.2, rfl, hw, hz⟩,
    ⟨_, rfl, rfl, rfl, rfl, hw, hz⟩⟩

/-- Witness of C5 at the `int` -5 and the `double` 1.0. -/
theorem UPCAST_to_Complex_witness :
    IsInt (-5)
    ∧ (∃ g, upcast .NumArray_Int64 .NumArray_Complex128 = some g
      ∧ g (-5 : Int) = NumArray_mkComplex (Float64.ofInt (-5)) Float64.zero
      ∧ (g (-5 : Int)).re.WellFormed
      ∧ (g (-5 : Int)).re.sign = decide ((-5 : Int) < 0)
      ∧ (g (-5 : Int)).re.toRat? = some ((-5 : Int) : ℚ)
      ∧ (g (-5 : Int)).im = Float64.zero
      ∧ (g (-5 : Int)).im.WellFormed ∧ (g (-5 : Int)).im.toRat? = some 0)
    ∧ (∃ g, upcast .NumArray_Float64 .NumArray_Complex128 = some g
      ∧ g (Float64.mk false 1023 0) = NumArray_mkComplex (Float64.mk false 1023 0) Float64.zero
      ∧ (g (Float64.mk false 1023 0)).re = Float64.mk false 1023 0
      ∧ (g (Float64.mk false 1023 0)).im = Float64.zero
      ∧ (g (Float64.mk false 1023 0)).im.WellFormed
      ∧ (g (Float64.mk false 1023 0)).im.toRat? = some 0) :=
  ⟨by decide, UPCAST_to_Complex (-5) (by decide) (Float64.mk false 1023 0)⟩

/-- C6, as stated, fails: there is no entry `UPCAST_double_int`, so the
conversion from Float64 to Int64 is not defined. -/
theorem upcast_Float64_Int64_undefined :
    (upcast .NumArray_Float64 .NumArray_Int64).isSome = false
    ∧ ¬ (∀ kfrom kto : NumArrayType, (upcast kfrom kto).isSome = true) := by
  refine ⟨rfl, fun h => ?_⟩
  have := h .NumArray_Float64 .NumArray_Int64
  exact absurd this (by decide)

/-- C6, amended: the conversion from kind `kfrom` to kind `kto` is defined
exactly when `kfrom` is ranked no higher than `kto`: the six entries of
`UPCAST` are the widening and same-kind pairs, and the three narrowing
pairs have none. -/
theorem upcast_defined_iff (kfrom kto : NumArrayType) :
    (upcast kfrom kto).isSome = true ↔ promotionRank kfrom ≤ promotionRank kto := by
  cases kfrom <;> cases kto <;> decide

/-- C7: for every value `n` of the C type of the Int64 kind (`int`), the
upcast to Float64 is a well-formed double that denotes exactly `n`; hence
distinct `int` elements upcast to distinct doubles. -/
theorem UPCAST_int_double_exact (n m : Int) (hn : IsInt n) (hm : IsInt m) :
    C_FROM_NATYPE .NumArray_Int64 = .int
    ∧ ∃ g, upcast .NumArray_Int64 .NumArray_Float64 = some g
      ∧ (g n).WellFormed
      ∧ (g n).toRat? = some (n : ℚ)
      ∧ (g n = g m → n = m) := by
  refine ⟨rfl, _, rfl, ?_, ?_, ?_⟩
  · exact (Float64.ofInt_exact n (IsInt.natAbs_lt n hn)).1
  · exact (Float64.ofInt_exact n (IsInt.natAbs_lt n hn)).2
  · exact Float64.ofInt_injOn n m (IsInt.natAbs_lt n hn) (IsInt.natAbs_lt m hm)

/-- Witness of C7 at the `int` values `INT_MIN` and `INT_MAX`. -/
theorem UPCAST_int_double_exact_witness :
    IsInt (-2147483648) ∧ IsInt 2147483647
    ∧ C_FROM_NATYPE .NumArray_Int64 = .int
    ∧ ∃ g, upcast .NumArray_Int64 .NumArray_Float64 = some g
      ∧ (g (-2147483648 : Int)).WellFormed
      ∧ (g (-2147483648 : Int)).toRat? = some ((-2147483648 : Int) : ℚ)
      ∧ (g (-2147483648 : Int) = g (2147483647 : Int) → (-2147483648 : Int) = 2147483647) :=
  ⟨by decide, by decide,
    UPCAST_int_double_exact (-2147483648) 2147483647 (by decide) (by decide)⟩

/-- C8: same-kind upcast is the identity: for every kind `k` the entry
`UPCAST(k, k, X)` exists and returns its argument unchanged. -/
theorem upcast_self (k : NumArrayType) :
    ∃ g, upcast k k = some g ∧ ∀ x, g x = x := by
  cases k <;> exact ⟨_, rfl, fun _ => rfl⟩

/-- C9: the two tables are closed under each other: for every ordered pair
of operand kinds the common type `T` exists and both `UPCAST(T1, T, .)` and
`UPCAST(T2, T, .)` are defined entries. -/
theorem UPCAST_to_common_defined (k1 k2 : NumArrayType) :
    ∃ T, UPCAST_COMMON (C_FROM_NATYPE k1) (C_FROM_NATYPE k2) = some T
      ∧ (UPCAST (C_FROM_NATYPE k1) T).isSome = true
      ∧ (UPCAST (C_FROM_NATYPE k2) T).isSome = true := by
  cases k1 <;> cases k2 <;> exact ⟨_, rfl, rfl, rfl⟩

/-- C10: `commonType` promotes no further than necessary: whenever both
operand kinds convert to a kind `k`, their common type converts to `k` as
well; with both operands converting to the common type, it is the least
kind both convert to in the order of the existing `UPCAST` entries. -/
theorem UPCAST_COMMON_least (k1 k2 k : NumArrayType)
    (h1 : (UPCAST (C_FROM_NATYPE k1) (C_FROM_NATYPE k)).isSome = true)
    (h2 : (UPCAST (C_FROM_NATYPE k2) (C_FROM_NATYPE k)).isSome = true) :
    ∃ T, UPCAST_COMMON (C_FROM_NATYPE k1) (C_FROM_NATYPE k2) = some T
      ∧ (UPCAST T (C_FROM_NATYPE k)).isSome = true
      ∧ (UPCAST (C_FROM_NATYPE k1) T).isSome = true
      ∧ (UPCAST (C_FROM_NATYPE k2) T).isSome = true := by
  cases k1 <;> cases k2 <;> cases k <;>
    first
    | exact ⟨_, rfl, rfl, rfl, rfl⟩
    | exact absurd h1 (by decide)
    | exact absurd h2 (by decide)

/-- Witness of C10 at Int64, Float64 and the target Complex128. -/
theorem UPCAST_COMMON_least_witness :
    (UPCAST (C_FROM_NATYPE .NumArray_Int64) (C_FROM_NATYPE .NumArray_Complex128)).isSome = true
    ∧ (UPCAST (C_FROM_NATYPE .NumArray_Float64) (C_FROM_NATYPE .NumArray_Complex128)).isSome = true
    ∧ ∃ T, UPCAST_COMMON (C_FROM_NATYPE .NumArray_Int64) (C_FROM_NATYPE .NumArray_Float64) = some T
      ∧ (UPCAST T (C_FROM_NATYPE .NumArray_Complex128)).isSome = true
      ∧ (UPCAST (C_FROM_NATYPE .NumArray_Int64) T).isSome = true
      ∧ (UPCAST (C_FROM_NATYPE .NumArray_Float64) T).isSome = true :=
  ⟨by decide, by decide,
    UPCAST_COMMON_least .NumArray_Int64 .NumArray_Float64 .NumArray_Complex128
      (by decide) (by decide)⟩

end VecTcl
